import Mathlib

/-!
Verification of the ts-json-db typed JSON document store.

The typed wrapper (class TypedJsonDB, src/src/index.ts) is embedded
directly from the source.  The wrapped JSON-tree engine (node-json-db) is
not part of this repository's sources, so the tree navigator and the
persistence manager are modelled from the specification (sections 4.2 and
4.3 of the design document): get walks segments and reports not-found,
set with overwrite creates intermediate containers and fails with
IndexOutOfRange on an explicit out-of-range index, set without overwrite
shallow-merges, delete is a no-op on missing data, and the document is
lazily loaded and eagerly flushed when saveOnPush is set.
-/

set_option autoImplicit false

/-- The in-memory JSON value tree (Document of the data model). -/
inductive Json where
  | null : Json
  | bool : Bool → Json
  | num : Int → Json
  | str : String → Json
  | arr : List Json → Json
  | obj : List (String × Json) → Json

/-- Error kinds of the error-handling design (section 7). -/
inductive DbError where
  | notFound
  | invalidKey
  | missingIndex
  | mergeTargetMissing
  | indexOutOfRange
  | ioFailure
  deriving DecidableEq, Repr

/-- One segment of a canonical path: an object key, an array index, or the
append marker produced by a trailing pair of brackets. -/
inductive PathSeg where
  | key (s : String)
  | idx (i : Int)
  | append
  deriving DecidableEq, Repr

/-- Whether a path segment is an object-key segment. -/
def PathSeg.isKey : PathSeg → Bool
  | PathSeg.key _ => true
  | _ => false

/-- A locator qualifying an operation on an Array or Dictionary entry: a
JavaScript number maps to index, a JavaScript string to key. -/
inductive Loc where
  | index (i : Int)
  | key (s : String)
  deriving DecidableEq, Repr

/-- Lookup of a key in an object's field list (first binding wins). -/
def objLookup (k : String) : List (String × Json) → Option Json
  | [] => none
  | kv :: rest => if kv.1 = k then some kv.2 else objLookup k rest

/-- Insert or replace a binding in an object's field list. -/
def objInsert (k : String) (v : Json) : List (String × Json) → List (String × Json)
  | [] => [(k, v)]
  | kv :: rest => if kv.1 = k then (k, v) :: rest else kv :: objInsert k v rest

/-- Remove all bindings of a key from an object's field list. -/
def objRemove (k : String) : List (String × Json) → List (String × Json)
  | [] => []
  | kv :: rest => if kv.1 = k then objRemove k rest else kv :: objRemove k rest

/-- Modelled from the spec: resolution of an array index against the current
length; -1 denotes the current last element, other indices must lie in
range (section 4.2 edge cases). -/
def resolveIdx (i : Int) (len : Nat) : Option Nat :=
  if i = -1 then
    if len = 0 then none else some (len - 1)
  else
    if 0 ≤ i ∧ i < (len : Int) then some i.toNat else none

/-- Modelled from the spec: shallow merge of new data into an existing node
(section 4.2, overwrite = false): objects combine key-by-key, arrays are
concatenated, anything else is replaced. -/
def jsonMerge (old nw : Json) : Json :=
  match old, nw with
  | Json.obj a, Json.obj b => Json.obj (b.foldl (fun acc kv => objInsert kv.1 kv.2 acc) a)
  | Json.arr a, Json.arr b => Json.arr (a ++ b)
  | _, n => n

/-- Modelled from the spec: the Tree Navigator's read (section 4.2): walk
segments, returning not-found rather than failing when any intermediate
segment is absent. -/
def navGet : Json → List PathSeg → Except DbError Json
  | d, [] => Except.ok d
  | Json.obj fs, PathSeg.key k :: rest =>
      match objLookup k fs with
      | some v => navGet v rest
      | none => Except.error DbError.notFound
  | Json.arr xs, PathSeg.idx i :: rest =>
      match resolveIdx i xs.length with
      | some n => navGet (xs.getD n Json.null) rest
      | none => Except.error DbError.notFound
  | _, _ => Except.error DbError.notFound

/-- The field list of the current node when it is an object; a fresh empty
object otherwise (intermediate containers are created as needed). -/
def curFields : Option Json → List (String × Json)
  | some (Json.obj fs) => fs
  | _ => []

/-- The element list of the current node when it is an array; a fresh empty
array otherwise (intermediate containers are created as needed). -/
def curElems : Option Json → List Json
  | some (Json.arr xs) => xs
  | _ => []

/-- Modelled from the spec: the Tree Navigator's write (section 4.2):
with overwrite it replaces the target node, creating intermediate
containers as needed (objects for key segments, arrays for index
segments), the append marker inserts at the end of the nearest array;
an explicit index out of range fails with IndexOutOfRange rather than
creating sparse slots; without overwrite the target is shallow-merged. -/
def navWrite : List PathSeg → Json → Bool → Option Json → Except DbError Json
  | [], v, ov, cur => Except.ok (if ov then v else jsonMerge (cur.getD Json.null) v)
  | PathSeg.key k :: rest, v, ov, cur =>
      (navWrite rest v ov (objLookup k (curFields cur))).map
        (fun nv => Json.obj (objInsert k nv (curFields cur)))
  | PathSeg.idx i :: rest, v, ov, cur =>
      match resolveIdx i (curElems cur).length with
      | some n => (navWrite rest v ov (some ((curElems cur).getD n Json.null))).map
          (fun nv => Json.arr ((curElems cur).set n nv))
      | none => Except.error DbError.indexOutOfRange
  | PathSeg.append :: rest, v, ov, cur =>
      (navWrite rest v ov none).map (fun nv => Json.arr (curElems cur ++ [nv]))

/-- Modelled from the spec: the Tree Navigator's delete (section 4.2):
removes the node, splicing arrays; deleting a non-existent path is a
no-op, not an error. -/
def navDelete : List PathSeg → Json → Json
  | [], _ => Json.null
  | PathSeg.key k :: rest, Json.obj fs =>
      match rest with
      | [] => Json.obj (objRemove k fs)
      | _ =>
        match objLookup k fs with
        | some v => Json.obj (objInsert k (navDelete rest v) fs)
        | none => Json.obj fs
  | PathSeg.idx i :: rest, Json.arr xs =>
      match resolveIdx i xs.length with
      | none => Json.arr xs
      | some n =>
        match rest with
        | [] => Json.arr (xs.eraseIdx n)
        | _ => Json.arr (xs.set n (navDelete rest (xs.getD n Json.null)))
  | _, d => d

/-- Split a character list on a separator character. -/
def splitOnChar (sep : Char) : List Char → List (List Char)
  | [] => [[]]
  | c :: rest =>
      let r := splitOnChar sep rest
      if c = sep then [] :: r
      else
        match r with
        | h :: t => (c :: h) :: t
        | [] => [[c]]

/-- Parse a non-empty run of decimal digits. -/
def parseNatChars (cs : List Char) : Option Nat :=
  if cs.isEmpty then none
  else
    cs.foldl
      (fun acc c =>
        match acc with
        | none => none
        | some n => if c.isDigit then some (10 * n + (c.toNat - '0'.toNat)) else none)
      (some 0)

/-- Parse an optionally negated run of decimal digits. -/
def parseIntChars : List Char → Option Int
  | '-' :: rest => (parseNatChars rest).map (fun n => -(n : Int))
  | cs => (parseNatChars cs).map Int.ofNat

/-- Modelled from the spec: one slash-delimited chunk of a canonical path,
with an optional bracket suffix (empty brackets are the append marker,
an integer is an array index); a chunk whose bracket content is not an
integer is kept whole as a key (section 3, Canonical Path). -/
def parseChunk (cs : List Char) : List PathSeg :=
  if cs.getLast? = some ']' ∧ cs.contains '[' then
    let name := cs.takeWhile (fun c => c ≠ '[')
    let inner := ((cs.dropWhile (fun c => c ≠ '[')).drop 1).dropLast
    let base := if name.isEmpty then [] else [PathSeg.key (String.mk name)]
    if inner.isEmpty then base ++ [PathSeg.append]
    else
      match parseIntChars inner with
      | some i => base ++ [PathSeg.idx i]
      | none => [PathSeg.key (String.mk cs)]
  else [PathSeg.key (String.mk cs)]

/-- Modelled from the spec: derive the segment sequence of a canonical path
from a slash-delimited string plus optional bracket-index suffix
(section 3, Canonical Path); empty chunks (leading separator) are
dropped. -/
def parsePath (s : String) : List PathSeg :=
  ((splitOnChar '/' s.data).filter (fun c => ¬ c.isEmpty)).foldr
    (fun chunk acc => parseChunk chunk ++ acc) []

/-- The store instance: the wrapper state plus the spec-modelled
Persistence Manager state (in-memory document, on-disk content, loaded
flag). -/
structure TypedJsonDB where
  file : Json
  doc : Json
  loaded : Bool
  throwIfNotFound : Bool
  saveOnPush : Bool

/-- The document every read observes: the in-memory tree when loaded, else
the on-disk content that lazy loading would bring in. -/
def viewDoc (db : TypedJsonDB) : Json :=
  if db.loaded then db.doc else db.file

/-- Modelled from the spec: lazy load on first access (section 2,
Persistence Manager). -/
def loadState (db : TypedJsonDB) : TypedJsonDB :=
  { db with doc := viewDoc db, loaded := true }

/-- Modelled from the spec: optional eager save after each mutation
(saveOnPush). -/
def flush (db : TypedJsonDB) : TypedJsonDB :=
  if db.saveOnPush then { db with file := db.doc } else db

/-- The constructor of TypedJsonDB (src/src/index.ts lines 202-205).  The
source assigns the field with the expression throwIfNotFound || true,
which is translated literally. -/
def TypedJsonDB.create (file : Json) (throwIfNotFound saveOnPush : Bool) : TypedJsonDB :=
  { file := file
    doc := Json.null
    loaded := false
    throwIfNotFound := throwIfNotFound || true
    saveOnPush := saveOnPush }

/-- updatePath (src/src/index.ts lines 216-225): a number locator appends
a bracketed index, a string locator appends a separator and the key,
and with no locator the path gains empty brackets when arrayEnd is
set. -/
def updatePath (path : String) (location : Option Loc) (arrayEnd : Bool) : String :=
  match location with
  | some (Loc.index i) => path ++ "[" ++ toString i ++ "]"
  | some (Loc.key s) => path ++ "/" ++ s
  | none => if arrayEnd then path ++ "[]" else path

/-- The internal database read (JsonDB.getData), modelled from the spec on
the view of the lazily loaded document. -/
def rawGet (db : TypedJsonDB) (p : String) : Except DbError Json :=
  navGet (viewDoc db) (parsePath p)

/-- The internal existence check (JsonDB.exists): whether getData
succeeds. -/
def rawExists (db : TypedJsonDB) (p : String) : Bool :=
  match rawGet db p with
  | Except.ok _ => true
  | Except.error _ => false

/-- The internal database write (JsonDB.push), modelled from the spec:
lazy load, navigate and write, then flush when saveOnPush is set. -/
def rawPush (db : TypedJsonDB) (p : String) (data : Json) (override : Bool) :
    Except DbError Unit × TypedJsonDB :=
  match navWrite (parsePath p) data override (some (viewDoc db)) with
  | Except.ok d => (Except.ok (), flush { loadState db with doc := d })
  | Except.error e => (Except.error e, loadState db)

/-- get (src/src/index.ts lines 274-284): resolve the path, then either
swallow the failure into null (when throwIfNotFound is false) or
surface it. -/
def TypedJsonDB.get (db : TypedJsonDB) (path : String) (location : Option Loc) :
    Except DbError Json :=
  let p := updatePath path location false
  if !db.throwIfNotFound then
    Except.ok
      (match rawGet db p with
       | Except.ok v => v
       | Except.error _ => Json.null)
  else rawGet db p

/-- set (src/src/index.ts lines 313-315): push at the bare path with
overwrite semantics. -/
def TypedJsonDB.set (db : TypedJsonDB) (path : String) (data : Json) :
    Except DbError Unit × TypedJsonDB :=
  rawPush db path data true

/-- push (src/src/index.ts lines 337-340): resolve with the array-end
marker allowed, then push with overwrite semantics. -/
def TypedJsonDB.push (db : TypedJsonDB) (path : String) (data : Json) (location : Option Loc) :
    Except DbError Unit × TypedJsonDB :=
  rawPush db (updatePath path location true) data true

/-- merge (src/src/index.ts lines 374-380): resolve the path, fail when no
data exists there, otherwise push without overwrite. -/
def TypedJsonDB.merge (db : TypedJsonDB) (path : String) (data : Json) (location : Option Loc) :
    Except DbError Unit × TypedJsonDB :=
  let p := updatePath path location false
  if rawExists db p then rawPush db p data false
  else (Except.error DbError.mergeTargetMissing, loadState db)

/-- exists (src/src/index.ts lines 429-432): resolve the path and test the
internal database. -/
def TypedJsonDB.existsData (db : TypedJsonDB) (path : String) (location : Option Loc) : Bool :=
  rawExists db (updatePath path location false)

/-- delete (src/src/index.ts lines 476-479): resolve the path and delete,
which is a no-op on missing data. -/
def TypedJsonDB.delete (db : TypedJsonDB) (path : String) (location : Option Loc) :
    Except DbError Unit × TypedJsonDB :=
  let p := updatePath path location false
  (Except.ok (), flush { loadState db with doc := navDelete (parsePath p) (viewDoc db) })

/-- reload (src/src/index.ts lines 485-487): replace the in-memory tree
with the on-disk content. -/
def TypedJsonDB.reload (db : TypedJsonDB) : TypedJsonDB :=
  { db with doc := db.file, loaded := true }

/-- save (src/src/index.ts lines 502-504): write the in-memory tree to the
file; without force, saving an unloaded database fails. -/
def TypedJsonDB.save (db : TypedJsonDB) (force : Bool) :
    Except DbError Unit × TypedJsonDB :=
  if force || db.loaded then (Except.ok (), { db with file := db.doc })
  else (Except.error DbError.ioFailure, db)

/-- The key validation regular expression of dictionaryPush and
dictionaryGetAt (src/src/index.ts lines 120-126 and 132-138): one or
more characters none of which is a separator or an opening bracket,
optionally followed by a single trailing separator. -/
def matchesKeyRegex (s : String) : Bool :=
  let cs := s.data
  let core := if cs.getLast? = some '/' then cs.dropLast else cs
  !core.isEmpty && core.all (fun c => c ≠ '/' && c ≠ '[')

/-- dictionaryPush (src/src/index.ts lines 120-126): reject a complex
property before touching the database, else push at the concatenated
path. -/
def dictionaryPush (db : TypedJsonDB) (path property : String) (data : Json) :
    Except DbError Unit × TypedJsonDB :=
  if !matchesKeyRegex property then (Except.error DbError.invalidKey, db)
  else rawPush db (path ++ "/" ++ property) data true

/-- Inversion of a successful Except.map. -/
theorem exceptMapOk {ε α β : Type} {f : α → β} {e : Except ε α} {b : β}
    (h : e.map f = Except.ok b) : ∃ a, e = Except.ok a ∧ b = f a := by
  cases e with
  | error err => simp [Except.map] at h
  | ok a => exact ⟨a, rfl, by simpa [Except.map] using h.symm⟩

/-- Looking up a key right after inserting it yields the inserted value. -/
theorem objLookup_objInsert (k : String) (v : Json) (fs : List (String × Json)) :
    objLookup k (objInsert k v fs) = some v := by
  induction fs with
  | nil => simp [objInsert, objLookup]
  | cons kv rest ih =>
      by_cases h : kv.1 = k
      · simp [objInsert, objLookup, h]
      · simp [objInsert, objLookup, h, ih]

/-- Looking up a key right after removing it yields nothing. -/
theorem objLookup_objRemove (k : String) (fs : List (String × Json)) :
    objLookup k (objRemove k fs) = none := by
  induction fs with
  | nil => rfl
  | cons kv rest ih =>
      by_cases h : kv.1 = k
      · simp [objRemove, h, ih]
      · simp [objRemove, objLookup, h, ih]

/-- A resolved index is in range. -/
theorem resolveIdx_lt {i : Int} {len n : Nat} (h : resolveIdx i len = some n) : n < len := by
  unfold resolveIdx at h
  split at h
  · split at h
    · exact absurd h (by simp)
    · rename_i hlen
      injection h with h
      omega
  · split at h
    · rename_i hrange
      injection h with h
      omega
    · exact absurd h (by simp)

/-- A successful read never traverses an append marker. -/
theorem navGet_no_append {segs : List PathSeg} :
    ∀ {d x : Json}, navGet d segs = Except.ok x → PathSeg.append ∉ segs := by
  induction segs with
  | nil => intro d x _; simp
  | cons s rest ih =>
      intro d x h
      cases s with
      | append => cases d <;> simp [navGet] at h
      | key k =>
          cases d with
          | obj fs =>
              simp only [navGet] at h
              cases hl : objLookup k fs with
              | none => rw [hl] at h; exact absurd h (by simp)
              | some v =>
                  rw [hl] at h
                  have hr := ih h
                  simp [hr]
          | null => simp [navGet] at h
          | bool b => simp [navGet] at h
          | num n => simp [navGet] at h
          | str t => simp [navGet] at h
          | arr xs => simp [navGet] at h
      | idx i =>
          cases d with
          | arr xs =>
              simp only [navGet] at h
              cases hr : resolveIdx i xs.length with
              | none => rw [hr] at h; exact absurd h (by simp)
              | some n =>
                  rw [hr] at h
                  have hm := ih h
                  simp [hm]
          | null => simp [navGet] at h
          | bool b => simp [navGet] at h
          | num n => simp [navGet] at h
          | str t => simp [navGet] at h
          | obj fs => simp [navGet] at h

/-- Overwriting along an append-free path puts the value where the same
path reads it back. -/
theorem navGet_navWrite {segs : List PathSeg} :
    ∀ {v : Json} {cur : Option Json} {d' : Json},
      PathSeg.append ∉ segs → navWrite segs v true cur = Except.ok d' →
      navGet d' segs = Except.ok v := by
  induction segs with
  | nil =>
      intro v cur d' _ h
      simp [navWrite] at h
      subst h
      cases v <;> rfl
  | cons s rest ih =>
      intro v cur d' hna h
      have hnr : PathSeg.append ∉ rest := by
        intro hmem
        exact hna (List.mem_cons_of_mem s hmem)
      cases s with
      | append => exact absurd (List.mem_cons_self PathSeg.append rest) hna
      | key k =>
          simp only [navWrite] at h
          obtain ⟨nv, h1, h2⟩ := exceptMapOk h
          subst h2
          simp only [navGet, objLookup_objInsert]
          exact ih hnr h1
      | idx i =>
          simp only [navWrite] at h
          cases hr : resolveIdx i (curElems cur).length with
          | none => rw [hr] at h; exact absurd h (by simp)
          | some n =>
              rw [hr] at h
              obtain ⟨nv, h1, h2⟩ := exceptMapOk h
              subst h2
              have hlt := resolveIdx_lt hr
              simp only [navGet, List.length_set, hr]
              have hget : ((curElems cur).set n nv).getD n Json.null = nv := by
                simp [List.getD_eq_getElem?_getD, List.getElem?_set_self, hlt]
              rw [hget]
              exact ih hnr h1


/-- Overwriting along a path of key segments only always succeeds:
intermediate objects are created as needed. -/
theorem navWrite_keys_ok {segs : List PathSeg} :
    ∀ {v : Json} {cur : Option Json}, segs.all PathSeg.isKey = true →
      ∃ d', navWrite segs v true cur = Except.ok d' := by
  induction segs with
  | nil => intro v cur _; exact ⟨_, rfl⟩
  | cons s rest ih =>
      intro v cur h
      rw [List.all_cons, Bool.and_eq_true] at h
      cases s with
      | append => exact absurd h.1 (by simp [PathSeg.isKey])
      | idx i => exact absurd h.1 (by simp [PathSeg.isKey])
      | key k =>
          obtain ⟨d', hd⟩ := @ih v (objLookup k (curFields cur)) h.2
          refine ⟨Json.obj (objInsert k d' (curFields cur)), ?_⟩
          simp only [navWrite, hd, Except.map]

/-- Writing without overwrite at a location where a read succeeds never
fails: the traversal follows the existing nodes. -/
theorem navWrite_merge_ok {segs : List PathSeg} :
    ∀ {d x v : Json}, navGet d segs = Except.ok x →
      ∃ d', navWrite segs v false (some d) = Except.ok d' := by
  induction segs with
  | nil => intro d x v _; exact ⟨_, rfl⟩
  | cons s rest ih =>
      intro d x v h
      cases s with
      | append => cases d <;> simp [navGet] at h
      | key k =>
          cases d with
          | obj fs =>
              simp only [navGet] at h
              cases hl : objLookup k fs with
              | none => rw [hl] at h; exact absurd h (by simp)
              | some w =>
                  rw [hl] at h
                  obtain ⟨d', hd⟩ := ih (v := v) h
                  refine ⟨Json.obj (objInsert k d' fs), ?_⟩
                  simp only [navWrite, curFields, hl, hd, Except.map]
          | null => simp [navGet] at h
          | bool b => simp [navGet] at h
          | num n => simp [navGet] at h
          | str t => simp [navGet] at h
          | arr xs => simp [navGet] at h
      | idx i =>
          cases d with
          | arr xs =>
              simp only [navGet] at h
              cases hr : resolveIdx i xs.length with
              | none => rw [hr] at h; exact absurd h (by simp)
              | some n =>
                  rw [hr] at h
                  obtain ⟨d', hd⟩ := ih (v := v) h
                  refine ⟨Json.arr (xs.set n d'), ?_⟩
                  simp only [navWrite, curElems, hr, hd, Except.map]
          | null => simp [navGet] at h
          | bool b => simp [navGet] at h
          | num n => simp [navGet] at h
          | str t => simp [navGet] at h
          | obj fs => simp [navGet] at h

/-- Writing with an explicit index succeeds whenever the base path reads
back an array and the index resolves against its length. -/
theorem navWrite_idx_ok {segs0 : List PathSeg} :
    ∀ {d : Json} {xs : List Json} {i : Int} {n : Nat} {v : Json},
      navGet d segs0 = Except.ok (Json.arr xs) → resolveIdx i xs.length = some n →
      ∃ d', navWrite (segs0 ++ [PathSeg.idx i]) v true (some d) = Except.ok d' := by
  induction segs0 with
  | nil =>
      intro d xs i n v h hr
      have hd : d = Json.arr xs := by
        cases d <;> simp [navGet] at h
        exact congrArg Json.arr h
      subst hd
      refine ⟨Json.arr (xs.set n v), ?_⟩
      simp [navWrite, curElems, hr, Except.map]
  | cons s rest ih =>
      intro d xs i n v h hr
      cases s with
      | append => cases d <;> simp [navGet] at h
      | key k =>
          cases d with
          | obj fs =>
              simp only [navGet] at h
              cases hl : objLookup k fs with
              | none => rw [hl] at h; exact absurd h (by simp)
              | some w =>
                  rw [hl] at h
                  obtain ⟨d', hd⟩ := ih (v := v) h hr
                  refine ⟨Json.obj (objInsert k d' fs), ?_⟩
                  simp only [List.cons_append, navWrite, curFields, hl, List.append_eq, hd,
                    Except.map]
          | null => simp [navGet] at h
          | bool b => simp [navGet] at h
          | num n' => simp [navGet] at h
          | str t => simp [navGet] at h
          | arr ys => simp [navGet] at h
      | idx j =>
          cases d with
          | arr ys =>
              simp only [navGet] at h
              cases hj : resolveIdx j ys.length with
              | none => rw [hj] at h; exact absurd h (by simp)
              | some m =>
                  rw [hj] at h
                  obtain ⟨d', hd⟩ := ih (v := v) h hr
                  refine ⟨Json.arr (ys.set m d'), ?_⟩
                  simp only [List.cons_append, navWrite, curElems, hj, List.append_eq, hd,
                    Except.map]
          | null => simp [navGet] at h
          | bool b => simp [navGet] at h
          | num n' => simp [navGet] at h
          | str t => simp [navGet] at h
          | obj fs => simp [navGet] at h

/-- Appending at the end of an array and then reading the last element
returns the appended value. -/
theorem navGet_append_write {segs0 : List PathSeg} :
    ∀ {v : Json} {cur : Option Json} {d' : Json},
      PathSeg.append ∉ segs0 →
      navWrite (segs0 ++ [PathSeg.append]) v true cur = Except.ok d' →
      navGet d' (segs0 ++ [PathSeg.idx (-1)]) = Except.ok v := by
  induction segs0 with
  | nil =>
      intro v cur d' _ h
      simp [navWrite, Except.map] at h
      subst h
      have hr : resolveIdx (-1) (curElems cur ++ [v]).length = some (curElems cur).length := by
        simp [resolveIdx]
      simp only [List.nil_append, navGet, hr]
      have hget : (curElems cur ++ [v]).getD (curElems cur).length Json.null = v := by
        simp [List.getD_eq_getElem?_getD]
      rw [hget]
  | cons s rest ih =>
      intro v cur d' hna h
      have hnr : PathSeg.append ∉ rest := by
        intro hmem
        exact hna (List.mem_cons_of_mem s hmem)
      cases s with
      | append => exact absurd (List.mem_cons_self PathSeg.append rest) hna
      | key k =>
          simp only [List.cons_append, navWrite] at h
          obtain ⟨nv, h1, h2⟩ := exceptMapOk h
          subst h2
          simp only [List.cons_append, navGet, objLookup_objInsert]
          exact ih hnr h1
      | idx i =>
          simp only [List.cons_append, navWrite] at h
          cases hr : resolveIdx i (curElems cur).length with
          | none => rw [hr] at h; exact absurd h (by simp)
          | some n =>
              rw [hr] at h
              obtain ⟨nv, h1, h2⟩ := exceptMapOk h
              subst h2
              have hlt := resolveIdx_lt hr
              simp only [List.cons_append, navGet, List.length_set, hr]
              have hget : ((curElems cur).set n nv).getD n Json.null = nv := by
                simp [List.getD_eq_getElem?_getD, List.getElem?_set_self, hlt]
              rw [hget]
              exact ih hnr h1

/-- After deleting at a path whose final segment is an object key, reading
back the same path fails with not-found. -/
theorem navGet_navDelete_key {segs0 : List PathSeg} :
    ∀ {d : Json} {k : String},
      navGet (navDelete (segs0 ++ [PathSeg.key k]) d) (segs0 ++ [PathSeg.key k])
        = Except.error DbError.notFound := by
  induction segs0 with
  | nil =>
      intro d k
      cases d with
      | obj fs => simp [navDelete, navGet, objLookup_objRemove]
      | null => simp [navDelete, navGet]
      | bool b => simp [navDelete, navGet]
      | num n => simp [navDelete, navGet]
      | str t => simp [navDelete, navGet]
      | arr xs => simp [navDelete, navGet]
  | cons s rest0 ih =>
      intro d k
      obtain ⟨b, bs, hbs⟩ : ∃ b bs, rest0 ++ [PathSeg.key k] = b :: bs := by
        cases rest0 with
        | nil => exact ⟨_, _, rfl⟩
        | cons x xs => exact ⟨_, _, rfl⟩
      cases s with
      | append =>
          rw [List.cons_append, hbs]
          cases d <;> simp [navDelete, navGet]
      | key k0 =>
          cases d with
          | obj fs =>
              rw [List.cons_append, hbs]
              cases hl : objLookup k0 fs with
              | none => simp [navDelete, navGet, hl]
              | some w =>
                  simp only [navDelete, hl]
                  simp only [navGet, objLookup_objInsert]
                  rw [← hbs]
                  exact ih
          | null => rw [List.cons_append, hbs]; simp [navDelete, navGet]
          | bool b' => rw [List.cons_append, hbs]; simp [navDelete, navGet]
          | num n' => rw [List.cons_append, hbs]; simp [navDelete, navGet]
          | str t => rw [List.cons_append, hbs]; simp [navDelete, navGet]
          | arr xs => rw [List.cons_append, hbs]; simp [navDelete, navGet]
      | idx j =>
          cases d with
          | arr xs =>
              rw [List.cons_append, hbs]
              cases hr : resolveIdx j xs.length with
              | none => simp [navDelete, navGet, hr]
              | some m =>
                  simp only [navDelete, hr]
                  have hlt := resolveIdx_lt hr
                  simp only [navGet, List.length_set, hr]
                  have hget :
                      (xs.set m (navDelete (b :: bs) (xs.getD m Json.null))).getD m Json.null
                        = navDelete (b :: bs) (xs.getD m Json.null) := by
                    simp [List.getD_eq_getElem?_getD, List.getElem?_set_self, hlt]
                  rw [hget, ← hbs]
                  exact ih
          | null => rw [List.cons_append, hbs]; simp [navDelete, navGet]
          | bool b' => rw [List.cons_append, hbs]; simp [navDelete, navGet]
          | num n' => rw [List.cons_append, hbs]; simp [navDelete, navGet]
          | str t => rw [List.cons_append, hbs]; simp [navDelete, navGet]
          | obj fs => rw [List.cons_append, hbs]; simp [navDelete, navGet]

/-- A write through the navigator only ever fails with IndexOutOfRange. -/
theorem navWrite_error_eq {segs : List PathSeg} :
    ∀ {v : Json} {ov : Bool} {cur : Option Json} {e : DbError},
      navWrite segs v ov cur = Except.error e → e = DbError.indexOutOfRange := by
  induction segs with
  | nil => intro v ov cur e h; simp [navWrite] at h
  | cons s rest ih =>
      intro v ov cur e h
      cases s with
      | key k =>
          simp only [navWrite] at h
          cases hw : navWrite rest v ov (objLookup k (curFields cur)) with
          | ok d => rw [hw] at h; simp [Except.map] at h
          | error e' =>
              rw [hw] at h
              simp [Except.map] at h
              rw [← h]
              exact ih hw
      | idx i =>
          simp only [navWrite] at h
          split at h
          · cases hw : navWrite rest v ov (some ((curElems cur).getD _ Json.null)) with
            | ok d => rw [hw] at h; simp [Except.map] at h
            | error e' =>
                rw [hw] at h
                simp [Except.map] at h
                rw [← h]
                exact ih hw
          · simp at h
            exact h.symm
      | append =>
          simp only [navWrite] at h
          cases hw : navWrite rest v ov none with
          | ok d => rw [hw] at h; simp [Except.map] at h
          | error e' =>
              rw [hw] at h
              simp [Except.map] at h
              rw [← h]
              exact ih hw

/-- A positive existence check exhibits a successful navigator read. -/
theorem rawExists_ok {db : TypedJsonDB} {p : String} (h : rawExists db p = true) :
    ∃ x, navGet (viewDoc db) (parsePath p) = Except.ok x := by
  unfold rawExists rawGet at h
  cases hx : navGet (viewDoc db) (parsePath p) with
  | ok x => exact ⟨x, rfl⟩
  | error e => rw [hx] at h; simp at h

/-- A loaded store is unchanged by the lazy-load step. -/
theorem loadState_loaded {db : TypedJsonDB} (h : db.loaded = true) : loadState db = db := by
  cases db
  simp only at h
  simp [loadState, viewDoc, h]

/-- A successful internal push reports success and its state views the
written document. -/
theorem rawPush_ok_view {db : TypedJsonDB} {p : String} {data : Json} {ov : Bool} {d : Json}
    (h : navWrite (parsePath p) data ov (some (viewDoc db)) = Except.ok d) :
    (rawPush db p data ov).1 = Except.ok ()
    ∧ viewDoc (rawPush db p data ov).2 = d := by
  unfold rawPush
  rw [h]
  constructor
  · rfl
  · by_cases hs : db.saveOnPush <;> simp [flush, loadState, viewDoc, hs]

/-- A successful internal push comes from a successful navigator write. -/
theorem rawPush_ok_inv {db : TypedJsonDB} {p : String} {data : Json} {ov : Bool}
    (h : (rawPush db p data ov).1 = Except.ok ()) :
    ∃ d, navWrite (parsePath p) data ov (some (viewDoc db)) = Except.ok d := by
  cases hw : navWrite (parsePath p) data ov (some (viewDoc db)) with
  | ok d => exact ⟨d, rfl⟩
  | error e => simp [rawPush, hw] at h

/-- A read whose internal lookup succeeds returns the value under either
error policy. -/
theorem get_ok_of_rawGet {db : TypedJsonDB} {p : String} {loc : Option Loc} {v : Json}
    (h : rawGet db (updatePath p loc false) = Except.ok v) :
    TypedJsonDB.get db p loc = Except.ok v := by
  unfold TypedJsonDB.get
  by_cases ht : db.throwIfNotFound = true <;> simp [ht, h]

/-- The state produced by delete views the document with the node
removed. -/
theorem delete_view {db : TypedJsonDB} {p : String} {loc : Option Loc} :
    viewDoc (TypedJsonDB.delete db p loc).2
      = navDelete (parsePath (updatePath p loc false)) (viewDoc db) := by
  by_cases hs : db.saveOnPush <;>
    simp [TypedJsonDB.delete, flush, loadState, viewDoc, hs]

/-- A member of a list that differs from the last element is a member of
the list without its last element. -/
theorem mem_dropLast_of_ne_getLast {l : List Char} {a c : Char}
    (ha : a ∈ l) (hc : l.getLast? = some c) (hne : a ≠ c) : a ∈ l.dropLast := by
  have hmem : c ∈ l.getLast? := Option.mem_def.mpr hc
  have hl := List.dropLast_append_getLast? c hmem
  rw [← hl] at ha
  rcases List.mem_append.mp ha with h1 | h1
  · exact h1
  · exact absurd (List.mem_singleton.mp h1) hne

/-- A simple key (non-empty, without separator and opening bracket) passes
the key validation. -/
theorem matchesKeyRegex_of_simple {k : String}
    (h1 : k.data ≠ []) (h2 : ∀ c ∈ k.data, c ≠ '/' ∧ c ≠ '[') :
    matchesKeyRegex k = true := by
  simp only [matchesKeyRegex]
  have hlast : ¬ k.data.getLast? = some '/' := by
    intro hl
    have hmem : '/' ∈ k.data.getLast? := Option.mem_def.mpr hl
    have heq := List.dropLast_append_getLast? '/' hmem
    have : '/' ∈ k.data := by
      rw [← heq]
      exact List.mem_append.mpr (Or.inr (List.mem_singleton.mpr rfl))
    exact (h2 '/' this).1 rfl
  rw [if_neg hlast]
  rw [Bool.and_eq_true]
  constructor
  · cases hd : k.data with
    | nil => exact absurd hd h1
    | cons c cs => simp
  · rw [List.all_eq_true]
    intro c hcm
    have := h2 c hcm
    simp [this.1, this.2]

/-- A key containing an opening bracket anywhere, or a separator anywhere
but in the final position, fails the key validation. -/
theorem matchesKeyRegex_of_bad {k : String}
    (h : '[' ∈ k.data ∨ '/' ∈ k.data.dropLast) :
    matchesKeyRegex k = false := by
  simp only [matchesKeyRegex]
  by_cases hl : k.data.getLast? = some '/'
  · rw [if_pos hl]
    have hbad : ∃ c ∈ k.data.dropLast, c = '[' ∨ c = '/' := by
      rcases h with h | h
      · exact ⟨'[', mem_dropLast_of_ne_getLast h hl (by decide), Or.inl rfl⟩
      · exact ⟨'/', h, Or.inr rfl⟩
    obtain ⟨c, hcm, hc⟩ := hbad
    rw [Bool.and_eq_false_iff]
    right
    rw [← Bool.not_eq_true, List.all_eq_true]
    intro hall
    have := hall c hcm
    rcases hc with hc | hc <;> subst hc <;> simp at this
  · rw [if_neg hl]
    have hbad : ∃ c ∈ k.data, c = '[' ∨ c = '/' := by
      rcases h with h | h
      · exact ⟨'[', h, Or.inl rfl⟩
      · exact ⟨'/', (List.dropLast_sublist k.data).subset h, Or.inr rfl⟩
    obtain ⟨c, hcm, hc⟩ := hbad
    rw [Bool.and_eq_false_iff]
    right
    rw [← Bool.not_eq_true, List.all_eq_true]
    intro hall
    have := hall c hcm
    rcases hc with hc | hc <;> subst hc <;> simp at this

/-- A loaded store over an empty root object, used as a concrete sample
state in witnesses. -/
def sampleEmpty : TypedJsonDB :=
  { file := Json.obj []
    doc := Json.obj []
    loaded := true
    throwIfNotFound := true
    saveOnPush := true }

/-- A loaded store holding a two-element array under the restaurants path,
used as a concrete sample state in witnesses. -/
def sampleArr : TypedJsonDB :=
  { file := Json.obj []
    doc := Json.obj [("restaurants", Json.arr [Json.str "a", Json.str "b"])]
    loaded := true
    throwIfNotFound := true
    saveOnPush := true }

/-- The number locator zero resolves to the bracketed index zero. -/
theorem updatePath_index_zero (p : String) (b : Bool) :
    updatePath p (some (Loc.index 0)) b = p ++ "[0]" := by
  show p ++ "[" ++ toString (0 : Int) ++ "]" = p ++ "[0]"
  rw [show toString (0 : Int) = "0" from rfl, String.append_assoc, String.append_assoc]
  rfl

/-- C1: the claim says the throw-versus-null policy is fixed by the
constructor flag and honored by reads.  The constructor assigns
throwIfNotFound || true, so the stored flag is true for every
constructor argument, and a store constructed with the flag false still
raises NotFound on a missing read instead of returning null. -/
theorem spec_C1 :
    (∀ (file : Json) (t s : Bool), (TypedJsonDB.create file t s).throwIfNotFound = true)
    ∧ TypedJsonDB.get (TypedJsonDB.create (Json.obj []) false true) "/login" none
        = Except.error DbError.notFound := by
  constructor
  · intro file t s
    simp [TypedJsonDB.create]
  · rfl

/-- C2: merge against a path with no existing data at the resolved
canonical path fails with MergeTargetMissing and leaves the observable
document unchanged, for every path, locator and data. -/
theorem spec_C2 (db : TypedJsonDB) (path : String) (data : Json) (location : Option Loc)
    (h : rawExists db (updatePath path location false) = false) :
    (TypedJsonDB.merge db path data location).1 = Except.error DbError.mergeTargetMissing
    ∧ viewDoc (TypedJsonDB.merge db path data location).2 = viewDoc db := by
  simp only [TypedJsonDB.merge]
  rw [h]
  constructor
  · rfl
  · simp [loadState, viewDoc]

/-- Witness for C2 at a concrete empty store. -/
theorem spec_C2_witness :
    rawExists sampleEmpty (updatePath "/login" none false) = false
    ∧ (TypedJsonDB.merge sampleEmpty "/login" (Json.str "x") none).1
        = Except.error DbError.mergeTargetMissing :=
  ⟨rfl, (spec_C2 sampleEmpty "/login" (Json.str "x") none rfl).1⟩

/-- C3 counterexample: merge on an Array path with the locator omitted is
claimed to fail with MissingIndex, but on a store whose array exists it
succeeds outright. -/
theorem spec_C3_cex :
    (TypedJsonDB.merge sampleArr "/restaurants" (Json.obj [("name", Json.str "12")]) none).1
      = Except.ok ()
    ∧ (TypedJsonDB.merge sampleArr "/restaurants" (Json.obj [("name", Json.str "12")]) none).1
      ≠ Except.error DbError.missingIndex := by
  refine ⟨rfl, fun h => ?_⟩
  exact Except.noConfusion (show Except.ok () = Except.error DbError.missingIndex from h)

/-- C3 amended: merge with the locator omitted resolves to the base path
itself; it either succeeds (when data exists there) or fails with
MergeTargetMissing — a MissingIndex failure does not exist. -/
theorem spec_C3 (db : TypedJsonDB) (path : String) (data : Json) :
    (TypedJsonDB.merge db path data none).1 = Except.ok ()
    ∨ (TypedJsonDB.merge db path data none).1 = Except.error DbError.mergeTargetMissing := by
  simp only [TypedJsonDB.merge]
  cases hex : rawExists db (updatePath path none false) with
  | false => right; rfl
  | true =>
      left
      rw [if_pos rfl]
      obtain ⟨x, hx⟩ := rawExists_ok hex
      obtain ⟨d', hd⟩ := navWrite_merge_ok (v := data) hx
      simp [rawPush, hd]

/-- C10: a merge that fails leaves the loaded store exactly as it was: the
existence check precedes the write. -/
theorem spec_C10 (db : TypedJsonDB) (path : String) (data : Json) (location : Option Loc)
    (hload : db.loaded = true) (e : DbError)
    (herr : (TypedJsonDB.merge db path data location).1 = Except.error e) :
    (TypedJsonDB.merge db path data location).2 = db := by
  simp only [TypedJsonDB.merge] at herr ⊢
  cases hex : rawExists db (updatePath path location false) with
  | false => exact loadState_loaded hload
  | true =>
      rw [hex] at herr
      obtain ⟨x, hx⟩ := rawExists_ok hex
      obtain ⟨d', hd⟩ := navWrite_merge_ok (v := data) hx
      rw [if_pos rfl] at herr
      simp [rawPush, hd] at herr

/-- Witness for C10 at a concrete loaded empty store. -/
theorem spec_C10_witness :
    (TypedJsonDB.merge sampleEmpty "/login" (Json.str "x") none).2 = sampleEmpty :=
  spec_C10 sampleEmpty "/login" (Json.str "x") none rfl DbError.mergeTargetMissing rfl

/-- C9: the numeric locator zero is treated as a supplied array index:
every operation resolves the canonical path to the base path followed
by the bracketed index zero, identically to calling the operation on
that explicit path with the locator omitted (and push resolves to an
indexed write, not an append). -/
theorem spec_C9 (db : TypedJsonDB) (p : String) (v data : Json) :
    updatePath p (some (Loc.index 0)) false = p ++ "[0]"
    ∧ updatePath p (some (Loc.index 0)) true = p ++ "[0]"
    ∧ TypedJsonDB.get db p (some (Loc.index 0)) = TypedJsonDB.get db (p ++ "[0]") none
    ∧ TypedJsonDB.existsData db p (some (Loc.index 0))
        = TypedJsonDB.existsData db (p ++ "[0]") none
    ∧ TypedJsonDB.delete db p (some (Loc.index 0)) = TypedJsonDB.delete db (p ++ "[0]") none
    ∧ TypedJsonDB.merge db p data (some (Loc.index 0))
        = TypedJsonDB.merge db (p ++ "[0]") data none
    ∧ TypedJsonDB.push db p v (some (Loc.index 0)) = rawPush db (p ++ "[0]") v true := by
  refine ⟨updatePath_index_zero p false, updatePath_index_zero p true, ?_, ?_, ?_, ?_, ?_⟩
  · simp only [TypedJsonDB.get, updatePath_index_zero]
    rfl
  · simp only [TypedJsonDB.existsData, updatePath_index_zero]
    rfl
  · simp only [TypedJsonDB.delete, updatePath_index_zero]
    rfl
  · simp only [TypedJsonDB.merge, updatePath_index_zero]
    rfl
  · simp only [TypedJsonDB.push, updatePath_index_zero]

/-- C4 counterexample: the claim says any key containing the path
separator fails with InvalidKey, but a key with a trailing separator
passes the validation and the push succeeds. -/
theorem spec_C4_cex :
    '/' ∈ ("a/").data
    ∧ matchesKeyRegex "a/" = true
    ∧ (dictionaryPush sampleEmpty "/teams" "a/" (Json.str "x")).1
        ≠ Except.error DbError.invalidKey := by
  refine ⟨by decide, rfl, fun h => ?_⟩
  exact Except.noConfusion (show Except.ok () = Except.error DbError.invalidKey from h)

/-- C4 amended: a key that is non-empty and contains neither the separator
nor an opening bracket is accepted; a key containing an opening bracket
anywhere, or a separator anywhere but as the final character, fails
with InvalidKey before any tree access (the store is returned
untouched).  A single trailing separator and the closing bracket are
tolerated, and only the explicit dictionary methods validate keys. -/
theorem spec_C4 (db : TypedJsonDB) (path k : String) (data : Json) :
    ((k.data ≠ [] ∧ ∀ c ∈ k.data, c ≠ '/' ∧ c ≠ '[') →
       (dictionaryPush db path k data).1 ≠ Except.error DbError.invalidKey)
    ∧ (('[' ∈ k.data ∨ '/' ∈ k.data.dropLast) →
       (dictionaryPush db path k data).1 = Except.error DbError.invalidKey
       ∧ (dictionaryPush db path k data).2 = db) := by
  constructor
  · intro hgood hcontra
    have hm := matchesKeyRegex_of_simple hgood.1 hgood.2
    rw [dictionaryPush, hm] at hcontra
    simp only [Bool.not_true, Bool.false_eq_true, if_false] at hcontra
    cases hw : navWrite (parsePath (path ++ "/" ++ k)) data true (some (viewDoc db)) with
    | ok d => simp [rawPush, hw] at hcontra
    | error e =>
        have he := navWrite_error_eq hw
        subst he
        simp [rawPush, hw] at hcontra
  · intro hbad
    have hm := matchesKeyRegex_of_bad hbad
    rw [dictionaryPush, hm]
    exact ⟨rfl, rfl⟩

/-- Witness for C4 at concrete good and bad keys. -/
theorem spec_C4_witness :
    (dictionaryPush sampleEmpty "/teams" "alice" (Json.str "x")).1
        ≠ Except.error DbError.invalidKey
    ∧ (dictionaryPush sampleEmpty "/teams" "a/b" (Json.str "x")).1
        = Except.error DbError.invalidKey :=
  ⟨(spec_C4 sampleEmpty "/teams" "alice" (Json.str "x")).1 (by decide),
   ((spec_C4 sampleEmpty "/teams" "a/b" (Json.str "x")).2 (by decide)).1⟩

/-- C6: on a Single entry (a path made of object-key segments), set
followed by get on the same instance returns the value just set, for
every store state and value. -/
theorem spec_C6 (db : TypedJsonDB) (p : String) (v : Json)
    (h : (parsePath p).all PathSeg.isKey = true) :
    TypedJsonDB.get (TypedJsonDB.set db p v).2 p none = Except.ok v := by
  obtain ⟨d', hd⟩ := @navWrite_keys_ok (parsePath p) v (some (viewDoc db)) h
  have hview := @rawPush_ok_view db p v true d' hd
  have hna : PathSeg.append ∉ parsePath p := by
    intro hm
    have hk := List.all_eq_true.mp h _ hm
    simp [PathSeg.isKey] at hk
  have hg : navGet d' (parsePath p) = Except.ok v := navGet_navWrite hna hd
  apply get_ok_of_rawGet
  show rawGet (TypedJsonDB.set db p v).2 p = Except.ok v
  unfold rawGet
  rw [show viewDoc (TypedJsonDB.set db p v).2 = d' from hview.2]
  exact hg

/-- Witness for C6 at a concrete single path. -/
theorem spec_C6_witness :
    (parsePath "/login").all PathSeg.isKey = true
    ∧ TypedJsonDB.get (TypedJsonDB.set sampleEmpty "/login" (Json.str "v")).2 "/login" none
        = Except.ok (Json.str "v") :=
  ⟨rfl, spec_C6 sampleEmpty "/login" (Json.str "v") rfl⟩

/-- C5 counterexample: the claim quantifies over every index, but pushing
at an index beyond the array (here index one on a store with no array
at all) fails with IndexOutOfRange, and the subsequent get does not
return the pushed value. -/
theorem spec_C5_cex :
    (TypedJsonDB.push (TypedJsonDB.create (Json.obj []) true true)
        "/restaurants" (Json.str "r") (some (Loc.index 1))).1
      = Except.error DbError.indexOutOfRange
    ∧ TypedJsonDB.get (TypedJsonDB.push (TypedJsonDB.create (Json.obj []) true true)
        "/restaurants" (Json.str "r") (some (Loc.index 1))).2
        "/restaurants" (some (Loc.index 1))
      = Except.error DbError.notFound
    ∧ (Except.error DbError.notFound : Except DbError Json) ≠ Except.ok (Json.str "r") :=
  ⟨rfl, rfl, fun h => Except.noConfusion h⟩

/-- C5 amended: on an Array entry, push at an index that resolves against
the current array length followed by get at the same index returns the
pushed value, and push with the locator omitted appends, so get at
index -1 returns the pushed value; an index that does not resolve is
out of range and the round trip fails instead. -/
theorem spec_C5 (db : TypedJsonDB) (p : String) (v : Json) :
    (∀ (i : Int) (xs : List Json) (n : Nat),
       parsePath (updatePath p (some (Loc.index i)) true) = parsePath p ++ [PathSeg.idx i] →
       navGet (viewDoc db) (parsePath p) = Except.ok (Json.arr xs) →
       resolveIdx i xs.length = some n →
       TypedJsonDB.get (TypedJsonDB.push db p v (some (Loc.index i))).2 p
           (some (Loc.index i))
         = Except.ok v)
    ∧ (parsePath (updatePath p none true) = parsePath p ++ [PathSeg.append] →
       parsePath (updatePath p (some (Loc.index (-1))) false)
         = parsePath p ++ [PathSeg.idx (-1)] →
       PathSeg.append ∉ parsePath p →
       (TypedJsonDB.push db p v none).1 = Except.ok () →
       TypedJsonDB.get (TypedJsonDB.push db p v none).2 p (some (Loc.index (-1)))
         = Except.ok v) := by
  constructor
  · intro i xs n hpp hbase hres
    obtain ⟨d', hd0⟩ := navWrite_idx_ok (v := v) hbase hres
    have hd : navWrite (parsePath (updatePath p (some (Loc.index i)) true)) v true
        (some (viewDoc db)) = Except.ok d' := by
      rw [hpp]
      exact hd0
    have hview := rawPush_ok_view hd
    have hna : PathSeg.append ∉ parsePath p ++ [PathSeg.idx i] := by
      intro hm
      rcases List.mem_append.mp hm with hm | hm
      · exact navGet_no_append hbase hm
      · simp at hm
    have hg : navGet d' (parsePath p ++ [PathSeg.idx i]) = Except.ok v := by
      apply navGet_navWrite hna
      rw [← hpp]
      exact hd
    apply get_ok_of_rawGet
    show rawGet (TypedJsonDB.push db p v (some (Loc.index i))).2
        (updatePath p (some (Loc.index i)) false) = Except.ok v
    unfold rawGet
    rw [show viewDoc (TypedJsonDB.push db p v (some (Loc.index i))).2 = d' from hview.2]
    show navGet d' (parsePath (updatePath p (some (Loc.index i)) true)) = Except.ok v
    rw [hpp]
    exact hg
  · intro hp1 hp2 hnap hpush
    obtain ⟨d', hd⟩ := rawPush_ok_inv hpush
    have hd1 : navWrite (parsePath p ++ [PathSeg.append]) v true (some (viewDoc db))
        = Except.ok d' := by
      rw [← hp1]
      exact hd
    have hg : navGet d' (parsePath p ++ [PathSeg.idx (-1)]) = Except.ok v :=
      navGet_append_write hnap hd1
    have hview := rawPush_ok_view hd
    apply get_ok_of_rawGet
    unfold rawGet
    rw [show viewDoc (TypedJsonDB.push db p v none).2 = d' from hview.2, hp2]
    exact hg

/-- Witness for C5 at a concrete two-element array, with index one and
with the append form. -/
theorem spec_C5_witness :
    TypedJsonDB.get (TypedJsonDB.push sampleArr "/restaurants" (Json.str "r")
        (some (Loc.index 1))).2 "/restaurants" (some (Loc.index 1))
      = Except.ok (Json.str "r")
    ∧ TypedJsonDB.get (TypedJsonDB.push sampleArr "/restaurants" (Json.str "r") none).2
        "/restaurants" (some (Loc.index (-1)))
      = Except.ok (Json.str "r") :=
  ⟨(spec_C5 sampleArr "/restaurants" (Json.str "r")).1 1 [Json.str "a", Json.str "b"] 1
      rfl rfl rfl,
   (spec_C5 sampleArr "/restaurants" (Json.str "r")).2 rfl rfl (by decide) rfl⟩

/-- C7: on a loaded store, save followed by reload yields a store that is
observationally equal to the one before: save succeeds and every get
and every existence check at every path and locator agrees. -/
theorem spec_C7 (db : TypedJsonDB) (force : Bool) (p : String) (loc : Option Loc)
    (h : db.loaded = true) :
    (TypedJsonDB.save db force).1 = Except.ok ()
    ∧ TypedJsonDB.get (TypedJsonDB.reload (TypedJsonDB.save db force).2) p loc
        = TypedJsonDB.get db p loc
    ∧ TypedJsonDB.existsData (TypedJsonDB.reload (TypedJsonDB.save db force).2) p loc
        = TypedJsonDB.existsData db p loc := by
  have hsave : TypedJsonDB.save db force = (Except.ok (), { db with file := db.doc }) := by
    unfold TypedJsonDB.save
    rw [h, Bool.or_true, if_pos rfl]
  refine ⟨by rw [hsave], ?_, ?_⟩
  · rw [hsave]
    simp [TypedJsonDB.reload, TypedJsonDB.get, rawGet, viewDoc, h]
  · rw [hsave]
    simp [TypedJsonDB.reload, TypedJsonDB.existsData, rawExists, rawGet, viewDoc, h]

/-- Witness for C7 at a concrete loaded store. -/
theorem spec_C7_witness :
    TypedJsonDB.get
        (TypedJsonDB.reload (TypedJsonDB.save sampleArr false).2) "/restaurants" none
      = TypedJsonDB.get sampleArr "/restaurants" none :=
  (spec_C7 sampleArr false "/restaurants" none rfl).2.1

/-- C8 counterexample: deleting the last element of a two-element array by
the locator -1 splices the array, and the same existence check still
reports true afterwards, contradicting the claim for array-index
locators. -/
theorem spec_C8_cex :
    TypedJsonDB.existsData
        (TypedJsonDB.delete sampleArr "/restaurants" (some (Loc.index (-1)))).2
        "/restaurants" (some (Loc.index (-1)))
      = true := rfl

/-- C8 amended: after delete, the existence check at the same path and
locator returns false whenever the resolved path ends in an object key
(the whole-entry and dictionary-key cases); array-index locators can
still report true because the array is spliced.  Delete itself never
raises, also on missing data. -/
theorem spec_C8 (db : TypedJsonDB) (p : String) (loc : Option Loc)
    (init : List PathSeg) (k : String)
    (h : parsePath (updatePath p loc false) = init ++ [PathSeg.key k]) :
    TypedJsonDB.existsData (TypedJsonDB.delete db p loc).2 p loc = false
    ∧ (TypedJsonDB.delete db p loc).1 = Except.ok () := by
  constructor
  · unfold TypedJsonDB.existsData rawExists rawGet
    rw [delete_view, h, navGet_navDelete_key]
  · rfl

/-- Witness for C8: deleting the whole array entry then checking existence
at the same path. -/
theorem spec_C8_witness :
    TypedJsonDB.existsData (TypedJsonDB.delete sampleArr "/restaurants" none).2
        "/restaurants" none = false
    ∧ (TypedJsonDB.delete sampleArr "/restaurants" none).1 = Except.ok () :=
  spec_C8 sampleArr "/restaurants" none [] "restaurants" rfl
